import Mathlib

/- Verification development for the minibook discussion platform.

   The repository ships the Next.js frontend, the agent skill documents
   and the development notes; the Python backend handlers are not part
   of the available sources.  Backend behaviour (mention parsing,
   notification fan-out, mark-read, PATCH semantics) is therefore
   modelled from the specification, while the frontend API client
   wrapper, the status control and the comment rendering recursion are
   embedded from the sources under src/frontend. -/

/-- A word character for mention tokens: letters, digits, underscore. -/
def isWordChar (c : Char) : Bool := c.isAlphanum || c = '_'

/-- Modelled from the spec: the backend mention parser (absent from
src/) scans text for word-boundary-delimited mention tokens; takeWord
returns the maximal leading run of word characters of a string tail. -/
def takeWord : List Char → List Char
  | [] => []
  | c :: cs => if isWordChar c then c :: takeWord cs else []

/-- Modelled from the spec: the scan of the mention parser (absent from
src/).  The boundary flag records that the previous character was not a
word character, so a mention token starts only at a word boundary; a
token is the at sign followed by a maximal nonempty word run that
matches a registered name exactly; unknown names are dropped. -/
def scanMentions (names : List String) : List Char → Bool → List String
  | [], _ => []
  | c :: cs, b =>
    let rest := scanMentions names cs (!(isWordChar c))
    if c = '@' ∧ b = true ∧ takeWord cs ≠ [] ∧ String.mk (takeWord cs) ∈ names then
      String.mk (takeWord cs) :: rest
    else rest

/-- Modelled from the spec: the mention parser (absent from src/)
returns the distinct registered agent names referenced by mention
tokens of the content. -/
def parseMentions (content : String) (names : List String) : List String :=
  (scanMentions names content.data true).dedup

/-- The content contains the mention token of the name n at a word
boundary: some position holds the at sign, preceded by a non-word
character (tracked by the boundary flag), and the maximal word run
after it is exactly n. -/
def hasToken (n : List Char) : List Char → Bool → Bool
  | [], _ => false
  | c :: cs, b =>
    (decide (c = '@') && b && decide (takeWord cs = n)) || hasToken n cs (!(isWordChar c))

/-- Notification types of the data model. -/
inductive NotifType where
  | mention
  | reply
  | statusChange
deriving DecidableEq

/-- Notification payload: the post, the optional triggering comment and
the triggering agent name. -/
structure NotifPayload where
  postId : Nat
  commentId : Option Nat
  byAgent : String
deriving DecidableEq

/-- A notification row. -/
structure Notification where
  nid : Nat
  agent : String
  ntype : NotifType
  payload : NotifPayload
  read : Bool
  createdAt : Nat
deriving DecidableEq

/-- Modelled from the spec: the fan-out (absent from src/) inserts one
mention notification per listed agent, referencing the post, the
optional triggering comment and the triggering agent. -/
def mkMentionNotifs (pid : Nat) (cid : Option Nat) (byA : String) (t : Nat) :
    List String → Nat → List Notification
  | [], _ => []
  | a :: as, base =>
    ⟨base, a, NotifType.mention, ⟨pid, cid, byA⟩, false, t⟩ ::
      mkMentionNotifs pid cid byA t as (base + 1)

/-- Modelled from the spec: the agents receiving a mention notification
of one creation event: the distinct mentioned agents other than the
author of the event. -/
def mentionTargets (names : List String) (author content : String) : List String :=
  (parseMentions content names).filter (fun a => a ≠ author)

/-- Modelled from the spec: fan-out for a new post (absent from src/):
one mention notification per distinct mentioned agent other than the
author. -/
def postFanout (names : List String) (author content : String) (pid base t : Nat) :
    List Notification :=
  mkMentionNotifs pid none author t (mentionTargets names author content) base

/-- Modelled from the spec: fan-out for a new comment (absent from
src/): one mention notification per distinct mentioned agent other than
the commenter, plus a reply notification for the post author when the
post author is neither the commenter nor covered by a mention
notification of this event. -/
def commentFanout (names : List String) (postAuthor commenter content : String)
    (pid cid base t : Nat) : List Notification :=
  if postAuthor ≠ commenter ∧ postAuthor ∉ mentionTargets names commenter content then
    mkMentionNotifs pid (some cid) commenter t (mentionTargets names commenter content) base
      ++ [⟨base + (mentionTargets names commenter content).length, postAuthor,
            NotifType.reply, ⟨pid, some cid, commenter⟩, false, t⟩]
  else
    mkMentionNotifs pid (some cid) commenter t (mentionTargets names commenter content) base

/-- A post row. -/
structure PostRec where
  pid : Nat
  projectId : Nat
  author : String
  title : String
  content : String
  ptype : String
  status : String
  tags : List String
  mentions : List String
  pinned : Bool
  createdAt : Nat
  updatedAt : Nat
deriving DecidableEq

/-- A comment row; ids are issued by a growing counter, so the id also
orders creation. -/
structure CommentRec where
  cid : Nat
  postId : Nat
  author : String
  parent : Option Nat
  content : String
  mentions : List String
  createdAt : Nat
deriving DecidableEq

/-- The persistent store. -/
structure Store where
  agents : List String
  posts : List PostRec
  comments : List CommentRec
  notifs : List Notification
  nextId : Nat
deriving DecidableEq

/-- GET of one post by id. -/
def getPost (st : Store) (pid : Nat) : Option PostRec :=
  st.posts.find? (fun p => p.pid == pid)

/-- GET of one comment by id. -/
def getComment (st : Store) (cid : Nat) : Option CommentRec :=
  st.comments.find? (fun c => c.cid == cid)

/-- Modelled from the spec: creating a post (backend handler absent
from src/) stores the content verbatim with status open, parses the
mentions against the registered names, appends the fan-out
notifications, and rejects an unregistered author. -/
def createPost (st : Store) (author : String) (projectId : Nat)
    (title content ptype : String) (tags : List String) (t : Nat) :
    Except String (Store × PostRec) :=
  if author ∈ st.agents then
    let p : PostRec := ⟨st.nextId, projectId, author, title, content, ptype,
      "open", tags, parseMentions content st.agents, false, t, t⟩
    let ns := postFanout st.agents author content st.nextId (st.nextId + 1) t
    let st2 : Store :=
      ⟨st.agents, st.posts ++ [p], st.comments, st.notifs ++ ns, st.nextId + 1 + ns.length⟩
    Except.ok (st2, p)
  else Except.error "Invalid API key"

/-- Modelled from the spec: a parent reference must name a comment of
the same post. -/
def validParent (st : Store) (postId : Nat) : Option Nat → Bool
  | none => true
  | some q => st.comments.any (fun c => c.cid == q && c.postId == postId)

/-- Modelled from the spec: creating a comment (backend handler absent
from src/) stores the content verbatim, requires an existing post and a
valid parent, and appends the comment fan-out notifications. -/
def createComment (st : Store) (author : String) (postId : Nat)
    (content : String) (parent : Option Nat) (t : Nat) :
    Except String (Store × CommentRec) :=
  if author ∈ st.agents then
    match getPost st postId with
    | none => Except.error "Post not found"
    | some p =>
      if validParent st postId parent then
        let c : CommentRec := ⟨st.nextId, postId, author, parent, content,
          parseMentions content st.agents, t⟩
        let ns := commentFanout st.agents p.author author content postId st.nextId
          (st.nextId + 1) t
        let st2 : Store :=
          ⟨st.agents, st.posts, st.comments ++ [c], st.notifs ++ ns, st.nextId + 1 + ns.length⟩
        Except.ok (st2, c)
      else Except.error "Parent comment not found"
  else Except.error "Invalid API key"

/-- Flip the read flag of the notification with the given id. -/
def setRead (nid : Nat) (m : Notification) : Notification :=
  if m.nid = nid then { m with read := true } else m

/-- Modelled from the spec: marking a notification read (backend
handler absent from src/) flips the read flag of the targeted row to
true, deletes nothing, and reports not-found for an unknown id. -/
def markRead (st : Store) (nid : Nat) : Except String Store :=
  if st.notifs.any (fun m => m.nid == nid) then
    Except.ok { st with notifs := st.notifs.map (setRead nid) }
  else Except.error "Notification not found"

/-- Modelled from the spec: read-all flips every read flag to true. -/
def markAllRead (st : Store) : Store :=
  { st with notifs := st.notifs.map (fun m => { m with read := true }) }

/-- Modelled from the spec: a PATCH carrying a status value (backend
handler absent from src/) replaces the status field of the post. -/
def applyStatusChange (p : PostRec) (s : String) : PostRec :=
  { p with status := s }

/-- From src/frontend/src/app/forum/page.tsx (PostPage): the single
status control targets resolved when the post is open, and open, via
the Reopen button, for any other status value. -/
def statusButtonTarget (status : String) : String :=
  if status = "open" then "resolved" else "open"

/-- Count the notifications of a list for one agent and one type. -/
def countAgentType (l : List Notification) (a : String) (ty : NotifType) : Nat :=
  (l.filter (fun m => m.agent = a ∧ m.ntype = ty)).length

/-- The parent-of relation between stored comments: a is the parent
comment of b.  The CommentItem recursion of
src/frontend/src/app/forum/page.tsx descends along the inverse of this
relation, from a comment to its replies. -/
def ParentOf (cs : List CommentRec) (a b : CommentRec) : Prop :=
  a ∈ cs ∧ b ∈ cs ∧ b.parent = some a.cid

/-- Modelled from the spec: every parent reference points to a comment
of the same post created strictly earlier. -/
def parentWF (cs : List CommentRec) : Bool :=
  cs.all (fun c => match c.parent with
    | none => true
    | some q => cs.any (fun a => a.cid == q && a.postId == c.postId && decide (a.cid < c.cid)))

/-- Comment ids are pairwise distinct. -/
def nodupIds (cs : List CommentRec) : Bool :=
  decide ((cs.map (fun c => c.cid)).Nodup)

/-- All comment ids lie below the id counter. -/
def idsBelow (cs : List CommentRec) (n : Nat) : Bool :=
  cs.all (fun c => decide (c.cid < n))

/-- A JSON body, abstracted to what the client wrapper reads: the
optional detail field and an opaque remainder. -/
structure JsonBody where
  detail : Option String
  rest : String
deriving DecidableEq

/-- An HTTP response: the status code, and the parsed body when the
body is valid JSON. -/
structure HttpResponse where
  status : Nat
  body : Option JsonBody
deriving DecidableEq

/-- Outcome of the client wrapper: a parsed value, a thrown Error with
a message, or a rejected json parse on an ok response. -/
inductive ApiOutcome where
  | ok (body : JsonBody)
  | err (message : String)
  | jsonParseFailure
deriving DecidableEq

/-- From src/frontend/src/lib/api.ts: res.ok of fetch, true for a 2xx
status. -/
def resOk (r : HttpResponse) : Bool := decide (200 ≤ r.status ∧ r.status < 300)

/-- JavaScript truthiness of the detail field: a missing field and the
empty string are falsy. -/
def truthyDetail (j : JsonBody) : Option String :=
  match j.detail with
  | some d => if d = "" then none else some d
  | none => none

/-- From src/frontend/src/lib/api.ts (api): on a non-ok response the
wrapper parses the body, the catch substituting a body whose detail is
Unknown error when the body is not JSON, and throws the detail if
truthy, else the text API error with the status code; on an ok response
it returns the parsed JSON body, and the json call rejects when the
body is not JSON. -/
def api (r : HttpResponse) : ApiOutcome :=
  if resOk r then
    match r.body with
    | some j => ApiOutcome.ok j
    | none => ApiOutcome.jsonParseFailure
  else
    let parsed : JsonBody :=
      match r.body with
      | some j => j
      | none => ⟨some "Unknown error", ""⟩
    ApiOutcome.err
      (match truthyDetail parsed with
       | some d => d
       | none => "API error: " ++ toString r.status)

/-- From src/frontend/src/lib/api.ts (api): the request headers always
carry the content type, and the Authorization bearer header exactly
when the token is truthy. -/
def buildHeaders (token : Option String) : List (String × String) :=
  [("Content-Type", "application/json")] ++
    (match token with
     | some t => if t = "" then [] else [("Authorization", "Bearer " ++ t)]
     | none => [])

/-- Whether a header list carries an Authorization entry. -/
def hasAuthHeader (hs : List (String × String)) : Bool :=
  hs.any (fun h => h.fst == "Authorization")

/-- Strip the read flag of a notification: everything marking read must
preserve. -/
def stripRead (m : Notification) : Nat × String × NotifType × NotifPayload × Nat :=
  (m.nid, m.agent, m.ntype, m.payload, m.createdAt)

theorem mem_scanMentions_iff (names : List String) (N : String) (hne : N.data ≠ []) :
    ∀ (s : List Char) (b : Bool),
      N ∈ scanMentions names s b ↔ (hasToken N.data s b = true ∧ N ∈ names) := by
  have hmk : ∀ w : List Char, (N = String.mk w) ↔ w = N.data := by
    intro w
    constructor
    · intro h; rw [h]
    · intro h; rw [h]
  intro s
  induction s with
  | nil => intro b; simp [scanMentions, hasToken]
  | cons c cs ih =>
    intro b
    simp only [scanMentions, hasToken, Bool.or_eq_true, Bool.and_eq_true,
      decide_eq_true_eq]
    split
    next h =>
      obtain ⟨hat, hb, hw, hmem⟩ := h
      rw [List.mem_cons, ih]
      by_cases ht : takeWord cs = N.data
      · have heq : N = String.mk (takeWord cs) := (hmk _).mpr ht
        have hNnames : N ∈ names := by rw [heq]; exact hmem
        exact ⟨fun _ => ⟨Or.inl ⟨⟨hat, hb⟩, ht⟩, hNnames⟩, fun _ => Or.inl heq⟩
      · constructor
        · intro hcase
          cases hcase with
          | inl h1 => exact absurd ((hmk _).mp h1) ht
          | inr h1 => exact ⟨Or.inr h1.1, h1.2⟩
        · intro hcase
          obtain ⟨h1, h2⟩ := hcase
          cases h1 with
          | inl h1 => exact absurd h1.2 ht
          | inr h1 => exact Or.inr ⟨h1, h2⟩
    next h =>
      rw [ih]
      constructor
      · intro hcase; exact ⟨Or.inr hcase.1, hcase.2⟩
      · intro hcase
        obtain ⟨h1, h2⟩ := hcase
        cases h1 with
        | inl h1 =>
          refine absurd ⟨h1.1.1, h1.1.2, ?_, ?_⟩ h
          · rw [h1.2]; exact hne
          · have heq : N = String.mk (takeWord cs) := (hmk _).mpr h1.2
            rw [← heq]; exact h2
        | inr h1 => exact ⟨h1, h2⟩

theorem mem_names_of_mem_scanMentions (names : List String) (x : String) :
    ∀ (s : List Char) (b : Bool), x ∈ scanMentions names s b → x ∈ names := by
  intro s
  induction s with
  | nil => intro b h; simp [scanMentions] at h
  | cons c cs ih =>
    intro b h
    simp only [scanMentions] at h
    split at h
    next hc =>
      cases h with
      | head => exact hc.2.2.2
      | tail _ h => exact ih _ h
    next => exact ih _ h

theorem mem_parseMentions_iff (names : List String) (N : String) (content : String)
    (hne : N.data ≠ []) :
    N ∈ parseMentions content names ↔
      (hasToken N.data content.data true = true ∧ N ∈ names) := by
  rw [parseMentions, List.mem_dedup]
  exact mem_scanMentions_iff names N hne content.data true

theorem mem_names_of_mem_parseMentions (names : List String) (x content : String)
    (h : x ∈ parseMentions content names) : x ∈ names :=
  mem_names_of_mem_scanMentions names x content.data true (List.mem_dedup.mp h)

theorem countAgentType_mkMentionNotifs (pid : Nat) (cid : Option Nat) (byA : String)
    (t : Nat) (N : String) :
    ∀ (as : List String) (base : Nat),
      countAgentType (mkMentionNotifs pid cid byA t as base) N NotifType.mention
        = as.count N := by
  intro as
  induction as with
  | nil => intro base; simp [mkMentionNotifs, countAgentType]
  | cons a as ih =>
    intro base
    by_cases h : a = N
    · simp [mkMentionNotifs, countAgentType, List.filter_cons, h, List.count_cons] at ih ⊢
      exact ih (base + 1)
    · simp [mkMentionNotifs, countAgentType, List.filter_cons, h, List.count_cons] at ih ⊢
      exact ih (base + 1)

theorem countAgentType_reply_mkMentionNotifs (pid : Nat) (cid : Option Nat)
    (byA : String) (t : Nat) (N : String) :
    ∀ (as : List String) (base : Nat),
      countAgentType (mkMentionNotifs pid cid byA t as base) N NotifType.reply = 0 := by
  intro as
  induction as with
  | nil => intro base; simp [mkMentionNotifs, countAgentType]
  | cons a as ih =>
    intro base
    simp [mkMentionNotifs, countAgentType, List.filter_cons] at ih ⊢
    exact ih (base + 1)

theorem mkMentionNotifs_shape (pid : Nat) (cid : Option Nat) (byA : String) (t : Nat) :
    ∀ (as : List String) (base : Nat),
      ∀ m ∈ mkMentionNotifs pid cid byA t as base,
        m.ntype = NotifType.mention ∧ m.payload = ⟨pid, cid, byA⟩ ∧ m.agent ∈ as := by
  intro as
  induction as with
  | nil => intro base m hm; simp [mkMentionNotifs] at hm
  | cons a as ih =>
    intro base m hm
    cases hm with
    | head => exact ⟨rfl, rfl, List.mem_cons_self a as⟩
    | tail _ hm =>
      obtain ⟨h1, h2, h3⟩ := ih (base + 1) m hm
      exact ⟨h1, h2, List.mem_cons_of_mem a h3⟩

theorem count_mentionTargets (names : List String) (N author content : String)
    (hreg : N ∈ names) (hne : N.data ≠ [])
    (htok : hasToken N.data content.data true = true) :
    (mentionTargets names author content).count N = if N = author then 0 else 1 := by
  by_cases h : N = author
  · rw [if_pos h]
    refine List.count_eq_zero.mpr (fun hmem => ?_)
    exact of_decide_eq_true (List.mem_filter.mp hmem).2 h
  · rw [if_neg h, mentionTargets, List.count_filter (by simp [h]), parseMentions,
      List.count_dedup, if_pos]
    exact (mem_scanMentions_iff names N hne content.data true).mpr ⟨htok, hreg⟩

theorem countAgentType_append (l1 l2 : List Notification) (a : String) (ty : NotifType) :
    countAgentType (l1 ++ l2) a ty = countAgentType l1 a ty + countAgentType l2 a ty := by
  simp [countAgentType, List.filter_append]

/-- C1: for every registered agent name N, creating a post or a comment
whose content contains the token at-N produces exactly one mention
notification for N, referencing the post (and the comment id when the
trigger is a comment) and the triggering author, unless N is the author
of the post or comment, in which case none is produced. -/
theorem mention_notification_exactly_once
    (names : List String) (N author postAuthor content : String)
    (pid cid base t : Nat)
    (hreg : N ∈ names) (hne : N.data ≠ [])
    (htok : hasToken N.data content.data true = true) :
    countAgentType (postFanout names author content pid base t) N NotifType.mention
        = (if N = author then 0 else 1)
    ∧ (∀ m ∈ postFanout names author content pid base t,
        m.ntype = NotifType.mention → m.payload = ⟨pid, none, author⟩)
    ∧ countAgentType (commentFanout names postAuthor author content pid cid base t) N
        NotifType.mention = (if N = author then 0 else 1)
    ∧ (∀ m ∈ commentFanout names postAuthor author content pid cid base t,
        m.ntype = NotifType.mention → m.payload = ⟨pid, some cid, author⟩) := by
  have hkey := count_mentionTargets names N author content hreg hne htok
  refine ⟨?_, ?_, ?_, ?_⟩
  · rw [postFanout, countAgentType_mkMentionNotifs, hkey]
  · intro m hm _
    exact (mkMentionNotifs_shape _ _ _ _ _ _ m hm).2.1
  · rw [commentFanout]
    split
    · rw [countAgentType_append, countAgentType_mkMentionNotifs, hkey]
      have : countAgentType
          [⟨base + (mentionTargets names author content).length, postAuthor,
            NotifType.reply, ⟨pid, some cid, author⟩, false, t⟩] N NotifType.mention = 0 := by
        simp [countAgentType]
      rw [this, Nat.add_zero]
    · rw [countAgentType_mkMentionNotifs, hkey]
  · intro m hm hty
    rw [commentFanout] at hm
    split at hm
    · rcases List.mem_append.mp hm with hm | hm
      · exact (mkMentionNotifs_shape _ _ _ _ _ _ m hm).2.1
      · rw [List.mem_singleton.mp hm] at hty
        exact absurd hty (by simp)
    · exact (mkMentionNotifs_shape _ _ _ _ _ _ m hm).2.1

theorem mention_notification_exactly_once_witness :
    countAgentType (postFanout ["alice", "bob"] "alice" "hey @bob" 7 8 0) "bob"
        NotifType.mention = (if ("bob" : String) = "alice" then 0 else 1)
    ∧ countAgentType (commentFanout ["alice", "bob"] "carol" "alice" "hey @bob" 7 9 8 0) "bob"
        NotifType.mention = (if ("bob" : String) = "alice" then 0 else 1) := by
  have h := mention_notification_exactly_once ["alice", "bob"] "bob" "alice" "carol"
    "hey @bob" 7 9 8 0 (by decide) (by decide) (by decide)
  exact ⟨h.1, h.2.2.1⟩

/-- C2: creating a comment inserts exactly one reply notification for
the post author, referencing the post, the comment and the commenter,
when the post author is neither the commenter nor covered by a mention
notification of the same event, and none otherwise. -/
theorem reply_notification_rule (names : List String)
    (postAuthor commenter content : String) (pid cid base t : Nat) :
    countAgentType (commentFanout names postAuthor commenter content pid cid base t)
        postAuthor NotifType.reply
      = (if postAuthor = commenter
            ∨ 0 < countAgentType (commentFanout names postAuthor commenter content pid cid base t)
                  postAuthor NotifType.mention
         then 0 else 1)
    ∧ ∀ m ∈ commentFanout names postAuthor commenter content pid cid base t,
        m.ntype = NotifType.reply →
          m.agent = postAuthor ∧ m.payload = ⟨pid, some cid, commenter⟩ := by
  rw [commentFanout]
  by_cases hcond : postAuthor ≠ commenter
      ∧ postAuthor ∉ mentionTargets names commenter content
  · rw [if_pos hcond]
    have hcnt0 : (mentionTargets names commenter content).count postAuthor = 0 :=
      List.count_eq_zero.mpr hcond.2
    have hmention : countAgentType
        (mkMentionNotifs pid (some cid) commenter t (mentionTargets names commenter content) base
          ++ [⟨base + (mentionTargets names commenter content).length, postAuthor,
                NotifType.reply, ⟨pid, some cid, commenter⟩, false, t⟩])
        postAuthor NotifType.mention = 0 := by
      rw [countAgentType_append, countAgentType_mkMentionNotifs, hcnt0]
      simp [countAgentType]
    constructor
    · rw [hmention, countAgentType_append, countAgentType_reply_mkMentionNotifs]
      rw [if_neg (by simp [hcond.1])]
      simp [countAgentType]
    · intro m hm hty
      rcases List.mem_append.mp hm with hm | hm
      · have := (mkMentionNotifs_shape _ _ _ _ _ _ m hm).1
        rw [this] at hty
        exact absurd hty (by simp)
      · rw [List.mem_singleton.mp hm]
        exact ⟨rfl, rfl⟩
  · rw [if_neg hcond]
    have hcond2 : postAuthor = commenter ∨ postAuthor ∈ mentionTargets names commenter content := by
      rcases not_and_or.mp hcond with h | h
      · exact Or.inl (not_not.mp h)
      · exact Or.inr (not_not.mp h)
    constructor
    · rw [countAgentType_reply_mkMentionNotifs]
      rw [if_pos ?_]
      rcases hcond2 with h | h
      · exact Or.inl h
      · refine Or.inr ?_
        rw [countAgentType_mkMentionNotifs]
        exact List.count_pos_iff.mpr h
    · intro m hm hty
      have := (mkMentionNotifs_shape _ _ _ _ _ _ m hm).1
      rw [this] at hty
      exact absurd hty (by simp)

theorem reply_notification_rule_witness :
    countAgentType (commentFanout ["alice", "bob"] "alice" "bob" "thanks" 1 2 3 0)
        "alice" NotifType.reply
      = (if ("alice" : String) = "bob"
            ∨ 0 < countAgentType (commentFanout ["alice", "bob"] "alice" "bob" "thanks" 1 2 3 0)
                  "alice" NotifType.mention
         then 0 else 1) :=
  (reply_notification_rule ["alice", "bob"] "alice" "bob" "thanks" 1 2 3 0).1

/-- C3: a post created by a registered author whose content carries a
mention token of an unregistered name succeeds, the unknown name is
absent from the stored mentions list, and no new notification row
targets that name. -/
theorem unknown_mention_dropped (st : Store) (author ghost : String) (projectId : Nat)
    (title content ptype : String) (tags : List String) (t : Nat)
    (hauth : author ∈ st.agents) (hghost : ghost ∉ st.agents)
    (htok : hasToken ghost.data content.data true = true) :
    ∃ st2 p, createPost st author projectId title content ptype tags t = Except.ok (st2, p)
      ∧ ghost ∉ p.mentions
      ∧ ∀ m ∈ st2.notifs, m.agent = ghost → m ∈ st.notifs := by
  rw [createPost, if_pos hauth]
  refine ⟨_, _, rfl, ?_, ?_⟩
  · intro hmem
    exact hghost (mem_names_of_mem_parseMentions st.agents ghost content hmem)
  · intro m hm hag
    rcases List.mem_append.mp hm with hm | hm
    · exact hm
    · exfalso
      have hsh := (mkMentionNotifs_shape _ _ _ _ _ _ m hm).2.2
      rw [hag] at hsh
      have : ghost ∈ parseMentions content st.agents := (List.mem_filter.mp hsh).1
      exact hghost (mem_names_of_mem_parseMentions st.agents ghost content this)

theorem unknown_mention_dropped_witness :
    ∃ st2 p, createPost ⟨["alice"], [], [], [], 0⟩ "alice" 1 "t" "hi @ghost" "discussion" [] 5
        = Except.ok (st2, p)
      ∧ "ghost" ∉ p.mentions
      ∧ ∀ m ∈ st2.notifs, m.agent = "ghost" → m ∈ (⟨["alice"], [], [], [], 0⟩ : Store).notifs :=
  unknown_mention_dropped ⟨["alice"], [], [], [], 0⟩ "alice" "ghost" 1 "t" "hi @ghost"
    "discussion" [] 5 (by decide) (by decide) (by decide)

/-- C4: under the threading invariant, a parent comment belongs to the
same post and was created strictly earlier, the parent-of relation is
well-founded (thread resolution terminates, no cycles), the child
relation driving the recursive CommentItem rendering is well-founded,
and comment creation preserves the invariant. -/
theorem comment_threads_wellfounded (st : Store)
    (h1 : parentWF st.comments = true) (h2 : nodupIds st.comments = true)
    (h3 : idsBelow st.comments st.nextId = true) :
    (∀ a b, ParentOf st.comments a b → a.postId = b.postId ∧ a.cid < b.cid)
    ∧ WellFounded (ParentOf st.comments)
    ∧ WellFounded (fun b a => ParentOf st.comments a b)
    ∧ ∀ author postId content parent t st2 c,
        createComment st author postId content parent t = Except.ok (st2, c) →
        parentWF st2.comments = true ∧ nodupIds st2.comments = true
          ∧ idsBelow st2.comments st2.nextId = true := by
  have hstep : ∀ a b, ParentOf st.comments a b → a.postId = b.postId ∧ a.cid < b.cid := by
    rintro a b ⟨ha, hb, hpar⟩
    have h1' := List.all_eq_true.mp h1 b hb
    simp only [hpar] at h1'
    obtain ⟨a2, ha2mem, ha2⟩ := List.any_eq_true.mp h1'
    simp only [Bool.and_eq_true, beq_iff_eq, decide_eq_true_eq] at ha2
    have heq : a2 = a :=
      List.inj_on_of_nodup_map (of_decide_eq_true h2) ha2mem ha ha2.1.1
    rw [← heq]
    exact ⟨ha2.1.2, ha2.2⟩
  refine ⟨hstep, ?_, ?_, ?_⟩
  · refine Subrelation.wf (r := InvImage (fun x y : Nat => x < y) (fun c : CommentRec => c.cid))
      (fun h => (hstep _ _ h).2) (InvImage.wf _ Nat.lt_wfRel.wf)
  · refine Subrelation.wf
      (r := InvImage (fun x y : Nat => x < y) (fun c : CommentRec => st.nextId - c.cid))
      ?_ (InvImage.wf _ Nat.lt_wfRel.wf)
    intro b a h
    have hlt := (hstep a b h).2
    have hbb : b.cid < st.nextId :=
      of_decide_eq_true (List.all_eq_true.mp h3 b h.2.1)
    have : st.nextId - b.cid < st.nextId - a.cid := by omega
    exact this
  · intro author postId content parent t st2 c hcc
    rw [createComment] at hcc
    split at hcc
    case isFalse => exact absurd hcc (by simp)
    case isTrue hauth =>
      split at hcc
      case h_1 => exact absurd hcc (by simp)
      case h_2 p hg =>
        split at hcc
        case isFalse => exact absurd hcc (by simp)
        case isTrue hvp =>
          simp only [Except.ok.injEq, Prod.mk.injEq] at hcc
          obtain ⟨hst, hc⟩ := hcc
          subst hst
          subst hc
          refine ⟨?_, ?_, ?_⟩
          · rw [parentWF, List.all_append, Bool.and_eq_true]
            constructor
            · refine List.all_eq_true.mpr ?_
              intro c' hc'
              have hold := List.all_eq_true.mp h1 c' hc'
              cases hp : c'.parent with
              | none => simp
              | some q =>
                simp only [hp] at hold ⊢
                rw [List.any_append, hold, Bool.true_or]
            · refine List.all_eq_true.mpr ?_
              intro c' hc'
              rw [List.mem_singleton.mp hc']
              cases hpv : parent with
              | none => simp
              | some q =>
                rw [hpv] at hvp
                rw [validParent] at hvp
                obtain ⟨w, hwmem, hw⟩ := List.any_eq_true.mp hvp
                simp only [Bool.and_eq_true, beq_iff_eq] at hw
                have hwlt : w.cid < st.nextId :=
                  of_decide_eq_true (List.all_eq_true.mp h3 w hwmem)
                simp only []
                rw [List.any_append, Bool.or_eq_true]
                refine Or.inl (List.any_eq_true.mpr ⟨w, hwmem, ?_⟩)
                simp only [Bool.and_eq_true, beq_iff_eq, decide_eq_true_eq]
                exact ⟨⟨hw.1, hw.2⟩, hwlt⟩
          · rw [nodupIds]
            apply decide_eq_true
            rw [List.map_append, List.nodup_append]
            refine ⟨of_decide_eq_true h2, List.nodup_singleton _, ?_⟩
            intro x hx hx2
            have : ∃ c', c' ∈ st.comments ∧ c'.cid = x := by
              obtain ⟨c', hc', hcx⟩ := List.mem_map.mp hx
              exact ⟨c', hc', hcx⟩
            obtain ⟨c', hc', hcx⟩ := this
            have hlt : c'.cid < st.nextId :=
              of_decide_eq_true (List.all_eq_true.mp h3 c' hc')
            have hxval : x = st.nextId := by
              simpa using hx2
            omega
          · rw [idsBelow]
            refine List.all_eq_true.mpr ?_
            intro c' hc'
            apply decide_eq_true
            rcases List.mem_append.mp hc' with hm | hm
            · have hlt : c'.cid < st.nextId :=
                of_decide_eq_true (List.all_eq_true.mp h3 c' hm)
              simp only []
              omega
            · rw [List.mem_singleton.mp hm]
              simp only []
              omega

theorem comment_threads_wellfounded_witness :
    ((⟨2, 1, "a", none, "x", [], 0⟩ : CommentRec).postId
        = (⟨3, 1, "a", some 2, "y", [], 1⟩ : CommentRec).postId
      ∧ (⟨2, 1, "a", none, "x", [], 0⟩ : CommentRec).cid
        < (⟨3, 1, "a", some 2, "y", [], 1⟩ : CommentRec).cid)
    ∧ WellFounded (ParentOf [⟨2, 1, "a", none, "x", [], 0⟩, ⟨3, 1, "a", some 2, "y", [], 1⟩]) := by
  have h := comment_threads_wellfounded
    ⟨["a"], [], [⟨2, 1, "a", none, "x", [], 0⟩, ⟨3, 1, "a", some 2, "y", [], 1⟩], [], 4⟩
    (by decide) (by decide) (by decide)
  exact ⟨h.1 _ _ ⟨by decide, by decide, rfl⟩, h.2.1⟩

/-- C5 counterexample: the frontend status control offers a transition
out of closed: on a closed post the button targets open, so closed is
not terminal. -/
theorem closed_status_not_terminal :
    (applyStatusChange ⟨0, 0, "a", "t", "c", "d", "closed", [], [], false, 0, 0⟩
        (statusButtonTarget "closed")).status = "open"
    ∧ ("open" : String) ≠ "closed" := ⟨rfl, by decide⟩

/-- C5 amended: the status control moves an open post to resolved and
any non-open post (resolved or closed) to open; no control targets
closed, and closed is not terminal since the Reopen control applies to
it. -/
theorem status_transitions_amended (p : PostRec) :
    ((applyStatusChange p (statusButtonTarget p.status)).status = "resolved" ↔ p.status = "open")
    ∧ ((applyStatusChange p (statusButtonTarget p.status)).status = "open" ↔ p.status ≠ "open")
    ∧ (applyStatusChange p (statusButtonTarget p.status)).status ≠ "closed" := by
  by_cases h : p.status = "open" <;>
    simp [applyStatusChange, statusButtonTarget, h]

theorem status_transitions_amended_witness :
    (applyStatusChange ⟨0, 0, "a", "t", "c", "d", "closed", [], [], false, 0, 0⟩
        (statusButtonTarget (⟨0, 0, "a", "t", "c", "d", "closed", [], [], false, 0,
          0⟩ : PostRec).status)).status
      ≠ "closed" :=
  (status_transitions_amended ⟨0, 0, "a", "t", "c", "d", "closed", [], [], false, 0, 0⟩).2.2

/-- C9: toggling an open post to resolved and back to open restores the
post exactly as it started. -/
theorem status_toggle_roundtrip (p : PostRec) (h : p.status = "open") :
    applyStatusChange (applyStatusChange p "resolved") "open" = p := by
  cases p
  simp_all [applyStatusChange]

theorem status_toggle_roundtrip_witness :
    applyStatusChange (applyStatusChange
        ⟨0, 0, "a", "t", "c", "d", "open", [], [], false, 0, 0⟩ "resolved") "open"
      = ⟨0, 0, "a", "t", "c", "d", "open", [], [], false, 0, 0⟩ :=
  status_toggle_roundtrip ⟨0, 0, "a", "t", "c", "d", "open", [], [], false, 0, 0⟩ rfl

/-- C6: marking an existing notification read succeeds, marking it read
again succeeds and changes nothing further, and the targeted
notification ends with the read flag true. -/
theorem markRead_idempotent (st : Store) (nid : Nat)
    (h : st.notifs.any (fun m => m.nid == nid) = true) :
    ∃ st1, markRead st nid = Except.ok st1
      ∧ markRead st1 nid = Except.ok st1
      ∧ ∀ m ∈ st1.notifs, m.nid = nid → m.read = true := by
  have hnid : ∀ m, (setRead nid m).nid = m.nid := by
    intro m; rw [setRead]; split <;> rfl
  refine ⟨⟨st.agents, st.posts, st.comments, st.notifs.map (setRead nid), st.nextId⟩,
    ?_, ?_, ?_⟩
  · rw [markRead, if_pos h]
  · rw [markRead]
    rw [if_pos ?hcond]
    case hcond =>
      rw [List.any_map]
      have hco : ((fun m : Notification => m.nid == nid) ∘ setRead nid)
          = (fun m : Notification => m.nid == nid) := by
        funext m
        simp [Function.comp, hnid]
      rw [hco]
      exact h
    have hmm : (st.notifs.map (setRead nid)).map (setRead nid)
        = st.notifs.map (setRead nid) := by
      rw [List.map_map]
      refine List.map_congr_left ?_
      intro m _
      show setRead nid (setRead nid m) = setRead nid m
      by_cases hm0 : m.nid = nid
      · have hinner : setRead nid m = { m with read := true } := by
          rw [setRead, if_pos hm0]
        rw [hinner, setRead,
          if_pos (show ({ m with read := true } : Notification).nid = nid from hm0)]
      · have hinner : setRead nid m = m := by
          rw [setRead, if_neg hm0]
        rw [hinner]
        exact hinner
    rw [hmm]
  · intro m hm hnideq
    obtain ⟨m0, hm0, rfl⟩ := List.mem_map.mp hm
    by_cases hm0n : m0.nid = nid
    · rw [setRead, if_pos hm0n]
    · rw [setRead, if_neg hm0n] at hnideq
      exact absurd hnideq hm0n

theorem markRead_idempotent_witness :
    ∃ st1, markRead ⟨[], [], [], [⟨5, "a", NotifType.mention, ⟨1, none, "b"⟩, false, 0⟩], 6⟩ 5
        = Except.ok st1
      ∧ markRead st1 5 = Except.ok st1
      ∧ ∀ m ∈ st1.notifs, m.nid = 5 → m.read = true :=
  markRead_idempotent ⟨[], [], [], [⟨5, "a", NotifType.mention, ⟨1, none, "b"⟩, false, 0⟩], 6⟩
    5 (by decide)

theorem find?_append_last {α : Type} (l : List α) (p : α → Bool) (x : α)
    (h : ∀ y ∈ l, p y = false) (hx : p x = true) : (l ++ [x]).find? p = some x := by
  induction l with
  | nil => simp [List.find?_cons, hx]
  | cons a as ih =>
    have ha := h a (List.mem_cons_self a as)
    rw [List.cons_append, List.find?_cons, ha]
    exact ih (fun y hy => h y (List.mem_cons_of_mem a hy))

/-- C7: the notification store is append-only: creation only appends
notification rows, marking one read preserves the row count and every
field except the read flag of the targeted row, untargeted rows survive
unchanged, and read-all also only flips read flags. -/
theorem notifications_append_only (st : Store) (nid : Nat) (author : String)
    (projectId : Nat) (title content ptype : String) (tags : List String)
    (t postId : Nat) (content2 : String) (parent : Option Nat) (t2 : Nat) :
    (∀ st1, markRead st nid = Except.ok st1 →
       st1.notifs.length = st.notifs.length
       ∧ st1.notifs.map stripRead = st.notifs.map stripRead
       ∧ (∀ m ∈ st.notifs, m.nid ≠ nid → m ∈ st1.notifs)
       ∧ (∀ m ∈ st.notifs, m.nid = nid → { m with read := true } ∈ st1.notifs))
    ∧ (markAllRead st).notifs.map stripRead = st.notifs.map stripRead
    ∧ (∀ st1 p, createPost st author projectId title content ptype tags t
          = Except.ok (st1, p) → ∃ new, st1.notifs = st.notifs ++ new)
    ∧ (∀ st1 c, createComment st author postId content2 parent t2
          = Except.ok (st1, c) → ∃ new, st1.notifs = st.notifs ++ new) := by
  refine ⟨?_, ?_, ?_, ?_⟩
  · intro st1 h1
    rw [markRead] at h1
    split at h1
    case isFalse => exact absurd h1 (by simp)
    case isTrue hc =>
      simp only [Except.ok.injEq] at h1
      subst h1
      refine ⟨List.length_map _ _, ?_, ?_, ?_⟩
      · show (st.notifs.map (setRead nid)).map stripRead = st.notifs.map stripRead
        rw [List.map_map]
        refine List.map_congr_left ?_
        intro m _
        show stripRead (setRead nid m) = stripRead m
        rw [setRead]
        split <;> rfl
      · intro m hm hne
        refine List.mem_map.mpr ⟨m, hm, ?_⟩
        rw [setRead, if_neg hne]
      · intro m hm heq
        refine List.mem_map.mpr ⟨m, hm, ?_⟩
        rw [setRead, if_pos heq]
  · show (st.notifs.map _).map stripRead = st.notifs.map stripRead
    rw [List.map_map]
    exact List.map_congr_left (fun m _ => rfl)
  · intro st1 p h
    rw [createPost] at h
    split at h
    case isFalse => exact absurd h (by simp)
    case isTrue =>
      simp only [Except.ok.injEq, Prod.mk.injEq] at h
      obtain ⟨hst, _⟩ := h
      subst hst
      exact ⟨_, rfl⟩
  · intro st1 c h
    rw [createComment] at h
    split at h
    case isFalse => exact absurd h (by simp)
    case isTrue =>
      split at h
      case h_1 => exact absurd h (by simp)
      case h_2 =>
        split at h
        case isFalse => exact absurd h (by simp)
        case isTrue =>
          simp only [Except.ok.injEq, Prod.mk.injEq] at h
          obtain ⟨hst, _⟩ := h
          subst hst
          exact ⟨_, rfl⟩

theorem notifications_append_only_witness :
    (⟨[], [], [], [⟨5, "a", NotifType.mention, ⟨1, none, "b"⟩, true, 0⟩,
        ⟨7, "c", NotifType.reply, ⟨1, some 2, "b"⟩, false, 0⟩], 8⟩ : Store).notifs.map stripRead
      = (⟨[], [], [], [⟨5, "a", NotifType.mention, ⟨1, none, "b"⟩, false, 0⟩,
          ⟨7, "c", NotifType.reply, ⟨1, some 2, "b"⟩, false, 0⟩], 8⟩ : Store).notifs.map stripRead
    ∧ (⟨7, "c", NotifType.reply, ⟨1, some 2, "b"⟩, false, 0⟩ : Notification)
      ∈ (⟨[], [], [], [⟨5, "a", NotifType.mention, ⟨1, none, "b"⟩, true, 0⟩,
          ⟨7, "c", NotifType.reply, ⟨1, some 2, "b"⟩, false, 0⟩], 8⟩ : Store).notifs := by
  have h := (notifications_append_only
    ⟨[], [], [], [⟨5, "a", NotifType.mention, ⟨1, none, "b"⟩, false, 0⟩,
      ⟨7, "c", NotifType.reply, ⟨1, some 2, "b"⟩, false, 0⟩], 8⟩
    5 "a" 1 "tt" "cc" "d" [] 9 1 "cm" none 10).1
    ⟨[], [], [], [⟨5, "a", NotifType.mention, ⟨1, none, "b"⟩, true, 0⟩,
      ⟨7, "c", NotifType.reply, ⟨1, some 2, "b"⟩, false, 0⟩], 8⟩ rfl
  exact ⟨h.2.1, h.2.2.1 ⟨7, "c", NotifType.reply, ⟨1, some 2, "b"⟩, false, 0⟩
    (by decide) (by decide)⟩

/-- C8: the content of a created post or comment round-trips verbatim:
fetching the freshly created row returns exactly the submitted content
string. -/
theorem content_roundtrip (st : Store) (author : String) (projectId : Nat)
    (title content ptype : String) (tags : List String) (t : Nat)
    (postId : Nat) (content2 : String) (parent : Option Nat) (t2 : Nat)
    (hauth : author ∈ st.agents)
    (hfp : st.posts.all (fun p => decide (p.pid ≠ st.nextId)) = true)
    (hfc : st.comments.all (fun c => decide (c.cid ≠ st.nextId)) = true)
    (hpost : (getPost st postId).isSome = true)
    (hpar : validParent st postId parent = true) :
    (∃ st1 p, createPost st author projectId title content ptype tags t = Except.ok (st1, p)
      ∧ p.content = content ∧ (getPost st1 p.pid).map PostRec.content = some content)
    ∧ (∃ st1 c, createComment st author postId content2 parent t2 = Except.ok (st1, c)
      ∧ c.content = content2
      ∧ (getComment st1 c.cid).map CommentRec.content = some content2) := by
  constructor
  · rw [createPost, if_pos hauth]
    refine ⟨_, _, rfl, rfl, ?_⟩
    rw [getPost, find?_append_last]
    · rfl
    · intro y hy
      have hne := of_decide_eq_true (List.all_eq_true.mp hfp y hy)
      exact beq_eq_false_iff_ne.mpr hne
    · exact beq_self_eq_true _
  · rw [createComment, if_pos hauth]
    split
    case h_1 hg =>
      rw [hg] at hpost
      simp at hpost
    case h_2 p0 hg =>
      rw [if_pos hpar]
      refine ⟨_, _, rfl, rfl, ?_⟩
      rw [getComment, find?_append_last]
      · rfl
      · intro y hy
        have hne := of_decide_eq_true (List.all_eq_true.mp hfc y hy)
        exact beq_eq_false_iff_ne.mpr hne
      · exact beq_self_eq_true _

theorem content_roundtrip_witness :
    (∃ st1 p, createPost ⟨["alice"], [⟨1, 0, "alice", "x", "y", "d", "open", [], [], false, 0, 0⟩],
        [], [], 2⟩ "alice" 0 "t" "Hello @world" "discussion" [] 3 = Except.ok (st1, p)
      ∧ p.content = "Hello @world"
      ∧ (getPost st1 p.pid).map PostRec.content = some "Hello @world")
    ∧ (∃ st1 c, createComment ⟨["alice"], [⟨1, 0, "alice", "x", "y", "d", "open", [], [], false,
        0, 0⟩], [], [], 2⟩ "alice" 1 "a comment" none 4 = Except.ok (st1, c)
      ∧ c.content = "a comment"
      ∧ (getComment st1 c.cid).map CommentRec.content = some "a comment") :=
  content_roundtrip
    ⟨["alice"], [⟨1, 0, "alice", "x", "y", "d", "open", [], [], false, 0, 0⟩], [], [], 2⟩
    "alice" 0 "t" "Hello @world" "discussion" [] 3 1 "a comment" none 4
    (by decide) (by decide) (by decide) (by decide) (by decide)

/-- C10 counterexample: against the claim, a non-2xx response whose
body is not JSON throws the message Unknown error supplied by the
catch, not the text API error with the status; a 2xx response whose
body is not JSON does not return a parsed body but fails the json
parse; and an empty-string token is supplied yet attaches no
Authorization header. -/
theorem api_wrapper_counterexample :
    api ⟨500, none⟩ = ApiOutcome.err "Unknown error"
    ∧ api ⟨500, none⟩ ≠ ApiOutcome.err "API error: 500"
    ∧ api ⟨200, none⟩ = ApiOutcome.jsonParseFailure
    ∧ hasAuthHeader (buildHeaders (some "")) = false := by
  refine ⟨rfl, ?_, rfl, rfl⟩
  decide

/-- C10 amended: the wrapper returns the parsed body on a 2xx JSON
response and fails the json parse on a 2xx non-JSON body; on a non-2xx
response it throws the truthy detail of a JSON body, the text API error
with the status when a JSON body has no truthy detail, and Unknown
error when the body is not JSON; the Authorization bearer header is
attached exactly for a supplied nonempty token. -/
theorem api_wrapper_amended (r : HttpResponse) (token : Option String) :
    api r = (if resOk r then
               match r.body with
               | some j => ApiOutcome.ok j
               | none => ApiOutcome.jsonParseFailure
             else
               match r.body with
               | some j =>
                 ApiOutcome.err ((truthyDetail j).getD ("API error: " ++ toString r.status))
               | none => ApiOutcome.err "Unknown error")
    ∧ (hasAuthHeader (buildHeaders token) = true ↔ ∃ tk, token = some tk ∧ tk ≠ "") := by
  constructor
  · rw [api]
    by_cases hok : resOk r = true
    · rw [if_pos hok, if_pos hok]
    · rw [if_neg hok, if_neg hok]
      cases hb : r.body with
      | none => rfl
      | some j =>
        cases hd : truthyDetail j with
        | none => simp [hd]
        | some d => simp [hd]
  · cases token with
    | none =>
      constructor
      · intro h
        exact absurd h (by decide)
      · rintro ⟨tk, htk, _⟩
        exact absurd htk (by simp)
    | some tk =>
      by_cases he : tk = ""
      · subst he
        constructor
        · intro h
          exact absurd h (by decide)
        · rintro ⟨tk2, htk, hne⟩
          simp only [Option.some.injEq] at htk
          exact absurd htk.symm hne
      · constructor
        · intro _
          exact ⟨tk, rfl, he⟩
        · intro _
          rw [buildHeaders]
          simp [hasAuthHeader, he]

theorem api_wrapper_amended_witness :
    hasAuthHeader (buildHeaders (some "k")) = true
      ↔ ∃ tk, (some "k" : Option String) = some tk ∧ tk ≠ "" :=
  (api_wrapper_amended ⟨404, some ⟨some "Not found", "z"⟩⟩ (some "k")).2
